import Mathlib

/-!
Shallow embedding of the allRank click-model module (`allrank/click_models/base.py`).

Each click-model class becomes a Lean function.  Randomness is made explicit:
the uniform draw of `np.random.rand()` and the sample drawn by
`np.random.choice` are passed as parameters, with the guarantees numpy gives
about them stated as hypotheses.  numpy array primitives (`cumsum`, `argmax`
on booleans, fancy-index assignment, `np.all` / `np.any` along axis 0) are
embedded by their mathematical semantics over `ℚ` and `ℤ`; Python floats are
modelled as rationals.  A child click model, as seen by a combinator, is a
function `Documents → List Int` (the `ClickModel.click` contract).
-/

/-- The `documents` input of `ClickModel.click`: a pair of a feature matrix `X`
(one row per document) and a relevance vector `y` of the same length. -/
structure Documents where
  X : List (List ℚ)
  y : List ℚ

/-- Semantics of `np.cumsum`: inclusive prefix sums. -/
def npCumsum {α : Type} [AddCommMonoid α] (l : List α) : List α :=
  (List.range l.length).map (fun i => (l.take (i + 1)).sum)

/-- Semantics of `np.argmax` on a boolean vector: index of the first `True`,
and 0 when every entry is `False` (all entries then equal the maximum). -/
def npArgmaxBool (l : List Bool) : Nat :=
  (l.findIdx? (fun b => b)).getD 0

/-- Semantics of `math.isclose(a, b, rel_tol, abs_tol)` from the Python
standard library: `abs(a-b) <= max(rel_tol * max(abs(a), abs(b)), abs_tol)`. -/
def mathIsclose (a b rel_tol abs_tol : ℚ) : Bool :=
  decide (|a - b| ≤ max (rel_tol * max |a| |b|) abs_tol)

/-- numpy index normalisation for integer indexing into an array of length `n`:
a negative index counts from the end. -/
def npNormIdx (n : Nat) (p : Int) : Int :=
  if p < 0 then p + n else p

/-- A 0/1 click mask of the same length as the relevance vector `y`. -/
def IsBinaryMask (y : List ℚ) (mask : List Int) : Prop :=
  mask.length = y.length ∧ ∀ v ∈ mask, v = 0 ∨ v = 1

/-- What `np.random.choice(range n, size, replace=False)` guarantees about the
sample it returns: `size` distinct indices, all below `n`. -/
def SampleValid (n size : Nat) (chosen : List Nat) : Prop :=
  chosen.length = size ∧ chosen.Nodup ∧ ∀ i ∈ chosen, i < n

/-- `RandomClickModel.click`.  `chosen` is the sample drawn by
`np.random.choice(range(len(y)), size=n_clicks, replace=False)`; numpy raises
(here: `none`) when `n_clicks` exceeds the population size.  The mask is all
zeros with 1 written at each chosen index. -/
def RandomClickModel.click (n_clicks : Nat) (chosen : List Nat) (documents : Documents) :
    Option (List Int) :=
  if n_clicks ≤ documents.y.length then
    some ((List.range documents.y.length).map (fun i => if chosen.contains i then 1 else 0))
  else
    none

/-- `FixedClickModel.click`: `clicks = np.repeat(0, len(y)); clicks[click_positions] = 1`.
numpy fancy-index assignment accepts any index in `[-n, n)` (negative indices
wrap to the end) and raises `IndexError` (here: `none`) otherwise. -/
def FixedClickModel.click (click_positions : List Int) (documents : Documents) :
    Option (List Int) :=
  let n := documents.y.length
  if click_positions.all (fun p => decide (-(n : Int) ≤ p) && decide (p < (n : Int))) then
    some ((List.range n).map (fun i : Nat =>
      if click_positions.any (fun p => npNormIdx n p == ((i : Nat) : Int)) then 1 else 0))
  else
    none

/-- The construction-time check of `MultipleClickModel.__init__`:
`assert math.isclose(np.sum(probabilities), 1.0, abs_tol=1e-5)` (the relative
tolerance keeps its Python default `1e-9`). -/
def MultipleClickModel.validInit (probabilities : List ℚ) : Bool :=
  mathIsclose probabilities.sum 1 (1 / 1000000000) (1 / 100000)

/-- `MultipleClickModel.click`:
`index = np.argmax(np.random.rand() < probabilities.cumsum())`, then delegate
to `click_models[index]`.  `u` is the uniform draw from `[0,1)`; indexing
outside the list raises (here: `none`). -/
def MultipleClickModel.click (click_models : List (Documents → List Int))
    (probabilities : List ℚ) (u : ℚ) (documents : Documents) : Option (List Int) :=
  let index := npArgmaxBool ((npCumsum probabilities).map (fun c => decide (u < c)))
  (click_models[index]?).map (fun cm => cm documents)

/-- Semantics of `np.all(masks, 0)` on a nonempty list of equal-length masks:
entry `i` of the result is truthy iff entry `i` of every mask is nonzero
(rendered as a 0/1 mask). -/
def npAll (masks : List (List Int)) (axis : Nat) : List Int :=
  match axis, masks with
  | _, [] => []
  | _, m :: ms => (List.range m.length).map (fun i =>
      if (m :: ms).all (fun mk => decide (mk.getD i 0 ≠ 0)) then 1 else 0)

/-- Semantics of `np.any(masks, 0)` on a nonempty list of equal-length masks. -/
def npAny (masks : List (List Int)) (axis : Nat) : List Int :=
  match axis, masks with
  | _, [] => []
  | _, m :: ms => (List.range m.length).map (fun i =>
      if (m :: ms).any (fun mk => decide (mk.getD i 0 ≠ 0)) then 1 else 0)

/-- `ConditionedClickModel.click`: collect every child's clicks on the same
documents and apply the combiner with axis argument 0. -/
def ConditionedClickModel.click (click_models : List (Documents → List Int))
    (combiner : List (List Int) → Nat → List Int) (documents : Documents) : List Int :=
  combiner (click_models.map (fun click_model => click_model documents)) 0

/-- `MaxClicksModel.click`: with `max_clicks = some m`, multiply the child's
mask pointwise by the 0/1 rendering of `cumsum <= m`; with the `None`
sentinel (`none`), return the child's mask unchanged. -/
def MaxClicksModel.click (click_model : Documents → List Int) (max_clicks : Option Int)
    (documents : Documents) : List Int :=
  let underlying_clicks := click_model documents
  match max_clicks with
  | some m => (underlying_clicks.zip (npCumsum underlying_clicks)).map
      (fun p => p.1 * (if p.2 ≤ m then 1 else 0))
  | none => underlying_clicks

/-- `OnlyRelevantClickModel.click`: `np.array(y) >= relevancy_threshold`,
rendered as a 0/1 mask. -/
def OnlyRelevantClickModel.click (relevancy_threshold : ℚ) (documents : Documents) : List Int :=
  documents.y.map (fun v => if relevancy_threshold ≤ v then 1 else 0)

/-! ## Helper lemmas -/

theorem getD_map_range {α : Type} (f : Nat → α) (d : α) {n i : Nat} (h : i < n) :
    ((List.range n).map f).getD i d = f i := by
  rw [List.getD_eq_getElem?_getD, List.getElem?_map, List.getElem?_range h]
  rfl

theorem npCumsum_length {α : Type} [AddCommMonoid α] (l : List α) :
    (npCumsum l).length = l.length := by
  simp [npCumsum]

theorem npCumsum_getD {α : Type} [AddCommMonoid α] (l : List α) (d : α) {i : Nat}
    (h : i < l.length) : (npCumsum l).getD i d = (l.take (i + 1)).sum :=
  getD_map_range _ _ h

theorem npAll_length (m : List Int) (ms : List (List Int)) (axis : Nat) :
    (npAll (m :: ms) axis).length = m.length := by
  simp [npAll]

theorem npAll_getD (m : List Int) (ms : List (List Int)) {i : Nat} (h : i < m.length) :
    (npAll (m :: ms) 0).getD i 0 =
      if (m :: ms).all (fun mk => decide (mk.getD i 0 ≠ 0)) then 1 else 0 := by
  unfold npAll
  exact getD_map_range _ _ h

theorem npAny_length (m : List Int) (ms : List (List Int)) (axis : Nat) :
    (npAny (m :: ms) axis).length = m.length := by
  simp [npAny]

theorem npAny_getD (m : List Int) (ms : List (List Int)) {i : Nat} (h : i < m.length) :
    (npAny (m :: ms) 0).getD i 0 =
      if (m :: ms).any (fun mk => decide (mk.getD i 0 ≠ 0)) then 1 else 0 := by
  unfold npAny
  exact getD_map_range _ _ h

theorem MultipleClickModel.validInit_iff (probabilities : List ℚ) :
    MultipleClickModel.validInit probabilities = true ↔
      |probabilities.sum - 1| ≤ 1 / 100000 := by
  unfold MultipleClickModel.validInit mathIsclose
  rw [decide_eq_true_iff, abs_one]
  constructor
  · intro h
    rcases le_max_iff.mp h with h1 | h2
    · rcases le_total |probabilities.sum| 1 with hs | hs
      · rw [max_eq_right hs] at h1
        linarith
      · rw [max_eq_left hs] at h1
        have habs : |probabilities.sum| - 1 ≤ |probabilities.sum - 1| := by
          have := abs_sub_abs_le_abs_sub probabilities.sum (1 : ℚ)
          simpa using this
        linarith
    · exact h2
  · intro h
    exact le_max_of_le_right h

theorem MultipleClickModel.validInit_ne_nil {probabilities : List ℚ}
    (h : MultipleClickModel.validInit probabilities = true) : probabilities ≠ [] := by
  intro hnil
  subst hnil
  rw [MultipleClickModel.validInit_iff] at h
  norm_num at h

theorem MultipleClickModel.validInit_one : MultipleClickModel.validInit [1] = true := by
  rw [MultipleClickModel.validInit_iff]
  norm_num

theorem multiple_index_lt {probabilities : List ℚ} (hne : probabilities ≠ []) (u : ℚ) :
    npArgmaxBool ((npCumsum probabilities).map (fun c => decide (u < c))) <
      probabilities.length := by
  unfold npArgmaxBool
  cases hf : ((npCumsum probabilities).map (fun c => decide (u < c))).findIdx? (fun b => b) with
  | none =>
    simpa using List.length_pos.mpr hne
  | some i =>
    have hi := (List.findIdx?_eq_some_iff_findIdx_eq.mp hf).1
    simpa [npCumsum] using hi

theorem countP_contains_range :
    ∀ (n : Nat) (chosen : List Nat), chosen.Nodup → (∀ i ∈ chosen, i < n) →
      (List.range n).countP (fun i => chosen.contains i) = chosen.length := by
  intro n
  induction n with
  | zero =>
    intro chosen hnd hlt
    have hnil : chosen = [] :=
      List.eq_nil_iff_forall_not_mem.mpr (fun a ha => by have := hlt a ha; omega)
    subst hnil
    rfl
  | succ n ih =>
    intro chosen hnd hlt
    rw [List.range_succ, List.countP_append]
    by_cases hmem : n ∈ chosen
    · have hcount1 : List.countP (fun i => chosen.contains i) [n] = 1 := by
        simp [List.countP_cons, List.contains, List.elem_iff, hmem]
      have hcongr : (List.range n).countP (fun i => chosen.contains i) =
          (List.range n).countP (fun i => (chosen.erase n).contains i) := by
        apply List.countP_congr
        intro a ha
        rw [List.mem_range] at ha
        simp only [List.contains, List.elem_iff, hnd.mem_erase_iff]
        have hne : a ≠ n := by omega
        tauto
      have herase := ih (chosen.erase n) (hnd.erase n) (fun i hi => by
        have hin := (hnd.mem_erase_iff).mp hi
        have := hlt i hin.2
        omega)
      have hlen : (chosen.erase n).length = chosen.length - 1 :=
        List.length_erase_of_mem hmem
      have hpos : 0 < chosen.length := List.length_pos_of_mem hmem
      rw [hcongr, herase, hcount1, hlen]
      omega
    · have hcount0 : List.countP (fun i => chosen.contains i) [n] = 0 := by
        simp [List.countP_cons, List.contains, List.elem_iff, hmem]
      rw [hcount0, ih chosen hnd (fun i hi => by
        have h1 := hlt i hi
        have h2 : i ≠ n := fun he => hmem (he ▸ hi)
        omega)]
      omega

theorem npCumsum_getElem {α : Type} [AddCommMonoid α] (l : List α) {i : Nat}
    (h : i < (npCumsum l).length) : (npCumsum l)[i] = (l.take (i + 1)).sum := by
  simp [npCumsum]

/-! ## Claim theorems -/

/-- C6: `OnlyRelevantClickModel.click` is a pure function of its inputs and
returns a mask of the length of the relevance vector whose entry at every
index `i` equals 1 exactly when `relevance[i] >= relevancy_threshold`
(inclusive comparison). -/
theorem onlyRelevantClickModel_threshold (relevancy_threshold : ℚ) (documents : Documents) :
    (OnlyRelevantClickModel.click relevancy_threshold documents).length =
      documents.y.length ∧
    ∀ i, i < documents.y.length →
      ((OnlyRelevantClickModel.click relevancy_threshold documents).getD i 0 = 1 ↔
        relevancy_threshold ≤ documents.y.getD i 0) := by
  constructor
  · simp [OnlyRelevantClickModel.click]
  · intro i h
    unfold OnlyRelevantClickModel.click
    rw [List.getD_eq_getElem?_getD, List.getElem?_map, List.getElem?_eq_getElem h]
    rw [List.getD_eq_getElem?_getD, List.getElem?_eq_getElem h]
    by_cases hc : relevancy_threshold ≤ documents.y[i]
    · simp [hc]
    · simp [hc]

/-- C6 witness: with threshold 1 and relevance vector `[0, 1, 2]`, the entry at
index 1 is clicked exactly because `1 ≤ 1`. -/
theorem onlyRelevantClickModel_threshold_witness :
    (OnlyRelevantClickModel.click 1 ⟨[], [0, 1, 2]⟩).getD 1 0 = 1 ↔
      (1 : ℚ) ≤ ([0, 1, 2] : List ℚ).getD 1 0 :=
  (onlyRelevantClickModel_threshold 1 ⟨[], [0, 1, 2]⟩).2 1 (by decide)

/-- C8: calling `RandomClickModel.click` with `n_clicks` strictly greater than
the number of documents fails with an error (numpy refuses to sample more
than the population without replacement); it never truncates. -/
theorem randomClickModel_overflow_errors (n_clicks : Nat) (chosen : List Nat)
    (documents : Documents) (h : documents.y.length < n_clicks) :
    RandomClickModel.click n_clicks chosen documents = none := by
  unfold RandomClickModel.click
  rw [if_neg]
  omega

/-- C8 witness: requesting 2 clicks over a single document errors out. -/
theorem randomClickModel_overflow_errors_witness :
    RandomClickModel.click 2 [] ⟨[], [0]⟩ = none :=
  randomClickModel_overflow_errors 2 [] ⟨[], [0]⟩ (by decide)

/-- C5: for `n_clicks ≤ len(documents)` and a valid without-replacement sample,
`RandomClickModel.click` returns a mask with exactly `n_clicks` ones (at the
distinct sampled indices) and zeros everywhere else. -/
theorem randomClickModel_exact_count (n_clicks : Nat) (chosen : List Nat)
    (documents : Documents) (hn : n_clicks ≤ documents.y.length)
    (hs : SampleValid documents.y.length n_clicks chosen) :
    ∃ mask, RandomClickModel.click n_clicks chosen documents = some mask ∧
      mask.count 1 = n_clicks ∧ ∀ v ∈ mask, v = 0 ∨ v = 1 := by
  obtain ⟨hlen, hnd, hlt⟩ := hs
  refine ⟨(List.range documents.y.length).map (fun i => if chosen.contains i then 1 else 0),
    ?_, ?_, ?_⟩
  · simp [RandomClickModel.click, hn]
  · rw [List.count_eq_countP, List.countP_map]
    have hcongr : List.countP
        ((fun x => x == (1 : Int)) ∘ fun i => if chosen.contains i then (1 : Int) else 0)
        (List.range documents.y.length) =
        List.countP (fun i => chosen.contains i) (List.range documents.y.length) := by
      apply List.countP_congr
      intro a _
      by_cases hc : a ∈ chosen <;>
        simp [Function.comp, List.contains, List.elem_iff, hc]
    rw [hcongr, countP_contains_range documents.y.length chosen hnd hlt, hlen]
  · intro v hv
    rw [List.mem_map] at hv
    obtain ⟨i, _, hi⟩ := hv
    by_cases hc : i ∈ chosen
    · right
      have hct : chosen.contains i = true := by
        simp [List.contains, List.elem_iff, hc]
      rw [hct] at hi
      simpa using hi.symm
    · left
      have hcf : chosen.contains i = false := by
        simp [List.contains, List.elem_iff, hc]
      rw [hcf] at hi
      simpa using hi.symm

/-- C5 witness: sampling indices 0 and 2 out of three documents produces a
mask with exactly two ones and 0/1 entries. -/
theorem randomClickModel_exact_count_witness :
    ∃ mask, RandomClickModel.click 2 [0, 2] ⟨[], [0, 0, 0]⟩ = some mask ∧
      mask.count 1 = 2 ∧ ∀ v ∈ mask, v = 0 ∨ v = 1 :=
  randomClickModel_exact_count 2 [0, 2] ⟨[], [0, 0, 0]⟩ (by decide)
    ⟨by decide, by decide, by decide⟩

/-- C2: `MaxClicksModel.click` with the no-limit sentinel returns the child
mask unchanged; with a limit `m` it keeps entry `i` of the child mask when the
inclusive prefix-sum of the mask up to `i` is at most `m` and zeroes it when
the running click count exceeds `m`; in particular a child mask
`[1,1,1,0,1]` with `max_clicks = 2` yields `[1,1,0,0,0]`. -/
theorem maxClicksModel_truncates :
    (∀ (click_model : Documents → List Int) (documents : Documents),
       MaxClicksModel.click click_model none documents = click_model documents) ∧
    (∀ (click_model : Documents → List Int) (m : Int) (documents : Documents),
       (MaxClicksModel.click click_model (some m) documents).length =
         (click_model documents).length ∧
       ∀ i, i < (click_model documents).length →
         (MaxClicksModel.click click_model (some m) documents).getD i 0 =
           if ((click_model documents).take (i + 1)).sum ≤ m
           then (click_model documents).getD i 0 else 0) ∧
    (∀ documents : Documents,
       MaxClicksModel.click (fun _ => [1, 1, 1, 0, 1]) (some 2) documents =
         [1, 1, 0, 0, 0]) := by
  refine ⟨fun click_model documents => rfl, fun click_model m documents => ?_, fun _ => rfl⟩
  constructor
  · simp [MaxClicksModel.click, npCumsum_length]
  · intro i h
    unfold MaxClicksModel.click
    have hm : i < (((click_model documents).zip (npCumsum (click_model documents))).map
        (fun p => p.1 * (if p.2 ≤ m then 1 else 0))).length := by
      simp [npCumsum_length]
      omega
    rw [List.getD_eq_getElem?_getD, List.getElem?_eq_getElem hm, Option.getD_some]
    rw [List.getElem_map, List.getElem_zip, npCumsum_getElem]
    rw [List.getD_eq_getElem?_getD, List.getElem?_eq_getElem h, Option.getD_some]
    by_cases hc : ((click_model documents).take (i + 1)).sum ≤ m
    · simp [hc]
    · simp [hc]

/-- C2 witness: the documented example, evaluated at a concrete input. -/
theorem maxClicksModel_truncates_witness :
    MaxClicksModel.click (fun _ => [1, 1, 1, 0, 1]) (some 2) ⟨[], []⟩ = [1, 1, 0, 0, 0] :=
  maxClicksModel_truncates.2.2 ⟨[], []⟩

/-- C7: construction of a MultipleClickModel succeeds exactly when the
probability sum lies within absolute tolerance 1e-5 of 1.0 (the residual
1e-9 relative tolerance of math.isclose never dominates), and in particular
probabilities summing to 0.9 are rejected at construction time. -/
theorem multipleClickModel_init_tolerance :
    (∀ probabilities : List ℚ,
       MultipleClickModel.validInit probabilities = true ↔
         |probabilities.sum - 1| ≤ 1 / 100000) ∧
    MultipleClickModel.validInit [9 / 10] = false := by
  refine ⟨MultipleClickModel.validInit_iff, ?_⟩
  have h := MultipleClickModel.validInit_iff [9 / 10]
  cases hb : MultipleClickModel.validInit [9 / 10]
  · rfl
  · exfalso
    rw [hb] at h
    have h2 := h.mp rfl
    rw [List.sum_cons, List.sum_nil] at h2
    have h3 : |(9 : ℚ) / 10 + 0 - 1| = 1 / 10 := by
      rw [show (9 : ℚ) / 10 + 0 - 1 = -(1 / 10) by norm_num, abs_neg,
        abs_of_nonneg (by norm_num : (0 : ℚ) ≤ 1 / 10)]
    rw [h3] at h2
    norm_num at h2

/-- C7 witness: probabilities summing to 0.9 fail the construction check. -/
theorem multipleClickModel_init_tolerance_witness :
    MultipleClickModel.validInit [9 / 10] = false :=
  multipleClickModel_init_tolerance.2

/-- C1: MultipleClickModel.click delegates to the first child whose cumulative
probability strictly exceeds the uniform draw `u` and returns that single
child's result unmodified; with probabilities `[1.0]` and one child it
reproduces the child's output exactly for every draw in `[0,1)`. -/
theorem multipleClickModel_single_delegation :
    (∀ (click_models : List (Documents → List Int)) (probabilities : List ℚ) (u : ℚ)
       (documents : Documents) (i : Nat) (hi : i < click_models.length),
       (npCumsum probabilities).findIdx? (fun c => decide (u < c)) = some i →
       MultipleClickModel.click click_models probabilities u documents =
         some (click_models.get ⟨i, hi⟩ documents)) ∧
    (∀ (click_model : Documents → List Int) (u : ℚ) (documents : Documents),
       0 ≤ u → u < 1 →
       MultipleClickModel.click [click_model] [1] u documents =
         some (click_model documents)) := by
  have hmain : ∀ (click_models : List (Documents → List Int)) (probabilities : List ℚ)
      (u : ℚ) (documents : Documents) (i : Nat) (hi : i < click_models.length),
      (npCumsum probabilities).findIdx? (fun c => decide (u < c)) = some i →
      MultipleClickModel.click click_models probabilities u documents =
        some (click_models.get ⟨i, hi⟩ documents) := by
    intro cms probs u documents i hi hfind
    unfold MultipleClickModel.click npArgmaxBool
    rw [List.findIdx?_map]
    rw [show ((fun b => b) ∘ fun c => decide (u < c)) = fun c => decide (u < c) from rfl]
    rw [hfind]
    simp [List.getElem?_eq_getElem hi, List.get_eq_getElem]
  constructor
  · exact hmain
  · intro cm u documents hu0 hu1
    apply hmain [cm] [1] u documents 0 (by simp)
    have hc : npCumsum [(1 : ℚ)] = [1] := by simp [npCumsum]
    rw [hc, List.findIdx?_cons]
    simp [hu1]

/-- C1 witness: one child with probability 1 and draw 0 reproduces the child
output exactly. -/
theorem multipleClickModel_single_delegation_witness :
    MultipleClickModel.click [fun _ => [7]] [1] 0 ⟨[], [0]⟩ = some [7] :=
  multipleClickModel_single_delegation.2 (fun _ => [7]) 0 ⟨[], [0]⟩ (le_refl 0) (by decide)

/-- C10: for a construction-valid MultipleClickModel with parallel lists, the
selected index is always in range, so some child is invoked and a mask is
returned; when the draw `u` reaches or exceeds every cumulative probability
(possible since the sum may fall short of 1.0 within the tolerance), the
first child (index 0) is selected rather than an error being raised. -/
theorem multipleClickModel_selection_total (click_models : List (Documents → List Int))
    (probabilities : List ℚ) (u : ℚ) (documents : Documents)
    (hlen : click_models.length = probabilities.length)
    (hvalid : MultipleClickModel.validInit probabilities = true) :
    (∃ mask, MultipleClickModel.click click_models probabilities u documents = some mask) ∧
    ((∀ c ∈ npCumsum probabilities, c ≤ u) →
      ∃ h0 : 0 < click_models.length,
        MultipleClickModel.click click_models probabilities u documents =
          some (click_models.get ⟨0, h0⟩ documents)) := by
  have hne := MultipleClickModel.validInit_ne_nil hvalid
  have hidx := multiple_index_lt hne u
  rw [← hlen] at hidx
  constructor
  · refine ⟨click_models[npArgmaxBool
      (List.map (fun c => decide (u < c)) (npCumsum probabilities))] documents, ?_⟩
    show Option.map (fun cm => cm documents)
      click_models[npArgmaxBool
        (List.map (fun c => decide (u < c)) (npCumsum probabilities))]? = _
    rw [List.getElem?_eq_getElem hidx]
    rfl
  · intro hall
    have h0 : 0 < click_models.length := by
      rw [hlen]
      exact List.length_pos.mpr hne
    refine ⟨h0, ?_⟩
    have hnone : ((npCumsum probabilities).map (fun c => decide (u < c))).findIdx?
        (fun b => b) = none := by
      rw [List.findIdx?_map]
      rw [show ((fun b => b) ∘ fun c => decide (u < c)) = fun c => decide (u < c) from rfl]
      rw [List.findIdx?_eq_none_iff]
      intro c hc
      simpa using hall c hc
    unfold MultipleClickModel.click npArgmaxBool
    rw [hnone]
    simp [List.getElem?_eq_getElem h0, List.get_eq_getElem]

/-- C10 witness: a valid single-probability model never errors, and a draw at
or above the whole cumulative vector still selects child 0. -/
theorem multipleClickModel_selection_total_witness :
    (∃ mask, MultipleClickModel.click [fun _ => [1]] [1] 2 ⟨[], [0]⟩ = some mask) ∧
    ∃ h0 : 0 < ([fun _ => ([1] : List Int)] : List (Documents → List Int)).length,
      MultipleClickModel.click [fun _ => [1]] [1] 2 ⟨[], [0]⟩ =
        some (([fun _ => ([1] : List Int)] : List (Documents → List Int)).get ⟨0, h0⟩
          ⟨[], [0]⟩) := by
  have h := multipleClickModel_selection_total [fun _ => [1]] [1] 2 ⟨[], [0]⟩ (by decide)
    MultipleClickModel.validInit_one
  exact ⟨h.1, h.2 (by simp [npCumsum])⟩

theorem npAll_mem_binary (m : List Int) (ms : List (List Int)) :
    ∀ v ∈ npAll (m :: ms) 0, v = 0 ∨ v = 1 := by
  intro v hv
  unfold npAll at hv
  rw [List.mem_map] at hv
  obtain ⟨i, _, hi⟩ := hv
  by_cases hb : ((m :: ms).all fun mk => decide (mk.getD i 0 ≠ 0)) = true
  · right
    rw [← hi, if_pos hb]
  · left
    rw [← hi, if_neg hb]

theorem npAny_mem_binary (m : List Int) (ms : List (List Int)) :
    ∀ v ∈ npAny (m :: ms) 0, v = 0 ∨ v = 1 := by
  intro v hv
  unfold npAny at hv
  rw [List.mem_map] at hv
  obtain ⟨i, _, hi⟩ := hv
  by_cases hb : ((m :: ms).any fun mk => decide (mk.getD i 0 ≠ 0)) = true
  · right
    rw [← hi, if_pos hb]
  · left
    rw [← hi, if_neg hb]

/-- C3: ConditionedClickModel.click invokes click on every child with the same
documents and applies the combiner pointwise along the model axis, producing
one mask of the per-document length; with the np.all combiner an entry is 1
exactly when every child clicked it, with np.any when some child did, and the
documented two-children examples evaluate to `[1,0,1]` and `[1,1,1]`. -/
theorem conditionedClickModel_pointwise :
    (∀ (click_models : List (Documents → List Int))
       (combiner : List (List Int) → Nat → List Int) (documents : Documents),
       ConditionedClickModel.click click_models combiner documents =
         combiner (click_models.map (fun cm => cm documents)) 0) ∧
    (∀ (click_models : List (Documents → List Int)) (documents : Documents),
       click_models ≠ [] →
       (∀ cm ∈ click_models, (cm documents).length = documents.y.length) →
       ((ConditionedClickModel.click click_models npAll documents).length =
          documents.y.length ∧
        ∀ i, i < documents.y.length →
          ((ConditionedClickModel.click click_models npAll documents).getD i 0 = 1 ↔
            ∀ cm ∈ click_models, (cm documents).getD i 0 ≠ 0)) ∧
       ((ConditionedClickModel.click click_models npAny documents).length =
          documents.y.length ∧
        ∀ i, i < documents.y.length →
          ((ConditionedClickModel.click click_models npAny documents).getD i 0 = 1 ↔
            ∃ cm ∈ click_models, (cm documents).getD i 0 ≠ 0))) ∧
    (∀ documents : Documents,
       ConditionedClickModel.click [fun _ => [1, 0, 1], fun _ => [1, 1, 1]] npAll
           documents = [1, 0, 1] ∧
       ConditionedClickModel.click [fun _ => [1, 0, 1], fun _ => [1, 1, 1]] npAny
           documents = [1, 1, 1]) := by
  refine ⟨fun _ _ _ => rfl, ?_, fun _ => ⟨rfl, rfl⟩⟩
  intro click_models documents hne hlen
  obtain ⟨c, cs, rfl⟩ : ∃ c cs, click_models = c :: cs := by
    cases click_models with
    | nil => exact absurd rfl hne
    | cons c cs => exact ⟨c, cs, rfl⟩
  have hcl : (c documents).length = documents.y.length := hlen c (by simp)
  constructor
  · constructor
    · show (npAll ((c documents) :: List.map (fun cm => cm documents) cs) 0).length = _
      rw [npAll_length, hcl]
    · intro i hi
      have hi2 : i < (c documents).length := by omega
      show (npAll ((c documents) :: List.map (fun cm => cm documents) cs) 0).getD i 0
          = 1 ↔ _
      rw [npAll_getD _ _ hi2]
      have hall : ((c documents) :: List.map (fun cm => cm documents) cs).all
          (fun mk => decide (mk.getD i 0 ≠ 0)) =
          (c :: cs).all (fun cm => decide ((cm documents).getD i 0 ≠ 0)) := by
        rw [Bool.eq_iff_iff]
        simp only [List.all_eq_true, List.mem_cons, List.mem_map, decide_eq_true_iff]
        constructor
        · intro h cm hcm
          rcases hcm with rfl | hcm2
          · exact h (cm documents) (Or.inl rfl)
          · exact h (cm documents) (Or.inr ⟨cm, hcm2, rfl⟩)
        · intro h mk hmk
          rcases hmk with rfl | ⟨cm, hcm, rfl⟩
          · exact h c (Or.inl rfl)
          · exact h cm (Or.inr hcm)
      rw [hall]
      by_cases hb : ((c :: cs).all fun cm => decide ((cm documents).getD i 0 ≠ 0)) = true
      · rw [if_pos hb]
        rw [List.all_eq_true] at hb
        constructor
        · intro _ cm hcm
          exact of_decide_eq_true (hb cm hcm)
        · intro _
          rfl
      · rw [if_neg hb]
        constructor
        · intro h01
          exact absurd h01 (by norm_num)
        · intro hforall
          exact absurd (List.all_eq_true.mpr
            (fun cm hcm => decide_eq_true (hforall cm hcm))) hb
  · constructor
    · show (npAny ((c documents) :: List.map (fun cm => cm documents) cs) 0).length = _
      rw [npAny_length, hcl]
    · intro i hi
      have hi2 : i < (c documents).length := by omega
      show (npAny ((c documents) :: List.map (fun cm => cm documents) cs) 0).getD i 0
          = 1 ↔ _
      rw [npAny_getD _ _ hi2]
      have hany : ((c documents) :: List.map (fun cm => cm documents) cs).any
          (fun mk => decide (mk.getD i 0 ≠ 0)) =
          (c :: cs).any (fun cm => decide ((cm documents).getD i 0 ≠ 0)) := by
        rw [Bool.eq_iff_iff]
        simp only [List.any_eq_true, List.mem_cons, List.mem_map, decide_eq_true_iff]
        constructor
        · intro hex
          obtain ⟨mk, hmk, hv⟩ := hex
          rcases hmk with rfl | ⟨cm, hcm, rfl⟩
          · exact ⟨c, Or.inl rfl, hv⟩
          · exact ⟨cm, Or.inr hcm, hv⟩
        · intro hex
          obtain ⟨cm, hcm, hv⟩ := hex
          rcases hcm with rfl | hcm2
          · exact ⟨cm documents, Or.inl rfl, hv⟩
          · exact ⟨cm documents, Or.inr ⟨cm, hcm2, rfl⟩, hv⟩
      rw [hany]
      by_cases hb : ((c :: cs).any fun cm => decide ((cm documents).getD i 0 ≠ 0)) = true
      · rw [if_pos hb]
        rw [List.any_eq_true] at hb
        obtain ⟨cm, hcm, hdec⟩ := hb
        constructor
        · intro _
          exact ⟨cm, hcm, of_decide_eq_true hdec⟩
        · intro _
          rfl
      · rw [if_neg hb]
        constructor
        · intro h01
          exact absurd h01 (by norm_num)
        · intro ⟨cm, hcm, hne0⟩
          exact absurd (List.any_eq_true.mpr ⟨cm, hcm, decide_eq_true hne0⟩) hb

/-- C3 witness: the documented examples, at a concrete documents input. -/
theorem conditionedClickModel_pointwise_witness :
    ConditionedClickModel.click [fun _ => [1, 0, 1], fun _ => [1, 1, 1]] npAll
        ⟨[], [0, 0, 0]⟩ = [1, 0, 1] ∧
    ConditionedClickModel.click [fun _ => [1, 0, 1], fun _ => [1, 1, 1]] npAny
        ⟨[], [0, 0, 0]⟩ = [1, 1, 1] :=
  conditionedClickModel_pointwise.2.2 ⟨[], [0, 0, 0]⟩

/-- C9 counterexample: position `-1` lies outside `[0, 3)` for a three-document
input, yet `FixedClickModel.click` does not raise — numpy wraps the negative
index to the last position and returns the mask `[0, 0, 1]`. -/
theorem fixedClickModel_negative_position_counterexample :
    FixedClickModel.click [-1] ⟨[], [0, 0, 0]⟩ = some [0, 0, 1] := by decide

/-- C9 amended: `FixedClickModel.click` raises exactly when some position lies
outside `[-n, n)` (numpy additionally accepts negative positions in `[-n, 0)`,
wrapping them to the end); for positions all within `[0, n)` it deterministically
returns 1 exactly at the (deduplicated) listed positions and 0 elsewhere. -/
theorem fixedClickModel_bounds :
    (∀ (click_positions : List Int) (documents : Documents),
       FixedClickModel.click click_positions documents = none ↔
         ∃ p ∈ click_positions,
           p < -(documents.y.length : Int) ∨ (documents.y.length : Int) ≤ p) ∧
    (∀ (click_positions : List Int) (documents : Documents),
       (∀ p ∈ click_positions, 0 ≤ p ∧ p < (documents.y.length : Int)) →
       ∃ mask, FixedClickModel.click click_positions documents = some mask ∧
         mask.length = documents.y.length ∧
         ∀ i, i < documents.y.length →
           ((mask.getD i 0 = 1 ↔ (i : Int) ∈ click_positions) ∧
            (mask.getD i 0 = 0 ∨ mask.getD i 0 = 1))) := by
  constructor
  · intro ps documents
    by_cases hall : (ps.all (fun p => decide (-(documents.y.length : Int) ≤ p) &&
        decide (p < (documents.y.length : Int)))) = true
    · have hsome : FixedClickModel.click ps documents =
          some ((List.range documents.y.length).map (fun i : Nat =>
            if ps.any (fun p => npNormIdx documents.y.length p == ((i : Nat) : Int))
            then 1 else 0)) := by
        show (if (ps.all (fun p => decide (-(documents.y.length : Int) ≤ p) &&
            decide (p < (documents.y.length : Int)))) = true then _ else none) = _
        rw [if_pos hall]
      rw [hsome]
      rw [List.all_eq_true] at hall
      constructor
      · intro hnone
        exact absurd hnone (by simp)
      · intro hex
        obtain ⟨p, hp, hout⟩ := hex
        have hin := hall p hp
        simp only [Bool.and_eq_true, decide_eq_true_iff] at hin
        omega
    · have hnone : FixedClickModel.click ps documents = none := by
        show (if (ps.all (fun p => decide (-(documents.y.length : Int) ≤ p) &&
            decide (p < (documents.y.length : Int)))) = true then _ else none) = _
        rw [if_neg hall]
      rw [hnone]
      simp only [true_iff]
      simp only [List.all_eq_true, not_forall, Bool.and_eq_true,
        decide_eq_true_iff] at hall
      obtain ⟨p, hp, hbad⟩ := hall
      refine ⟨p, hp, ?_⟩
      omega
  · intro ps documents hin
    have hall : (ps.all (fun p => decide (-(documents.y.length : Int) ≤ p) &&
        decide (p < (documents.y.length : Int)))) = true := by
      rw [List.all_eq_true]
      intro p hp
      have := hin p hp
      simp only [Bool.and_eq_true, decide_eq_true_iff]
      omega
    refine ⟨(List.range documents.y.length).map (fun i : Nat =>
      if ps.any (fun p => npNormIdx documents.y.length p == ((i : Nat) : Int))
      then 1 else 0), ?_, ?_, ?_⟩
    · show (if (ps.all (fun p => decide (-(documents.y.length : Int) ≤ p) &&
          decide (p < (documents.y.length : Int)))) = true then _ else none) = _
      rw [if_pos hall]
    · simp
    · intro i hi
      rw [getD_map_range _ _ hi]
      constructor
      · constructor
        · intro h1
          by_cases hb : (ps.any (fun p => npNormIdx documents.y.length p == (i : Int)))
              = true
          · rw [List.any_eq_true] at hb
            obtain ⟨p, hp, hbeq⟩ := hb
            rw [beq_iff_eq] at hbeq
            have hp0 := (hin p hp).1
            have hnorm : npNormIdx documents.y.length p = p := by
              unfold npNormIdx
              rw [if_neg (by omega)]
            rw [hnorm] at hbeq
            exact hbeq ▸ hp
          · rw [if_neg hb] at h1
            exact absurd h1 (by norm_num)
        · intro hmem
          have hb : (ps.any (fun p => npNormIdx documents.y.length p == (i : Int)))
              = true := by
            rw [List.any_eq_true]
            refine ⟨(i : Int), hmem, ?_⟩
            have h0 : (0 : Int) ≤ (i : Int) := Int.natCast_nonneg i
            unfold npNormIdx
            rw [if_neg (by omega)]
            exact beq_self_eq_true _
          rw [if_pos hb]
      · by_cases hb : (ps.any (fun p => npNormIdx documents.y.length p == (i : Int)))
            = true
        · right
          rw [if_pos hb]
        · left
          rw [if_neg hb]

/-- C9 amended witness: position 5 errors out on three documents, and the
in-bounds positions `[0, 2]` click exactly those positions. -/
theorem fixedClickModel_bounds_witness :
    (FixedClickModel.click [5] ⟨[], [0, 0, 0]⟩ = none ↔
      ∃ p ∈ ([5] : List Int), p < -((⟨[], [0, 0, 0]⟩ : Documents).y.length : Int) ∨
        ((⟨[], [0, 0, 0]⟩ : Documents).y.length : Int) ≤ p) ∧
    ∃ mask, FixedClickModel.click [0, 2] ⟨[], [0, 0, 0]⟩ = some mask ∧
      mask.length = (⟨[], [0, 0, 0]⟩ : Documents).y.length ∧
      ∀ i, i < (⟨[], [0, 0, 0]⟩ : Documents).y.length →
        ((mask.getD i 0 = 1 ↔ (i : Int) ∈ ([0, 2] : List Int)) ∧
         (mask.getD i 0 = 0 ∨ mask.getD i 0 = 1)) :=
  ⟨fixedClickModel_bounds.1 [5] ⟨[], [0, 0, 0]⟩,
   fixedClickModel_bounds.2 [0, 2] ⟨[], [0, 0, 0]⟩ (by decide)⟩

/-- C4: every built-in click model variant, under its stated preconditions,
returns a mask whose length equals the length of the relevance vector and
whose entries all lie in {0, 1}: the three primitives outright, and each
combinator whenever its children honour the same contract. -/
theorem builtin_click_binary_masks :
    (∀ (n_clicks : Nat) (chosen : List Nat) (documents : Documents),
       n_clicks ≤ documents.y.length →
       SampleValid documents.y.length n_clicks chosen →
       ∃ mask, RandomClickModel.click n_clicks chosen documents = some mask ∧
         IsBinaryMask documents.y mask) ∧
    (∀ (click_positions : List Int) (documents : Documents),
       (∀ p ∈ click_positions, 0 ≤ p ∧ p < (documents.y.length : Int)) →
       ∃ mask, FixedClickModel.click click_positions documents = some mask ∧
         IsBinaryMask documents.y mask) ∧
    (∀ (relevancy_threshold : ℚ) (documents : Documents),
       IsBinaryMask documents.y
         (OnlyRelevantClickModel.click relevancy_threshold documents)) ∧
    (∀ (click_models : List (Documents → List Int)) (probabilities : List ℚ) (u : ℚ)
       (documents : Documents),
       click_models.length = probabilities.length →
       MultipleClickModel.validInit probabilities = true →
       (∀ cm ∈ click_models, IsBinaryMask documents.y (cm documents)) →
       ∃ mask, MultipleClickModel.click click_models probabilities u documents =
         some mask ∧ IsBinaryMask documents.y mask) ∧
    (∀ (click_models : List (Documents → List Int)) (documents : Documents),
       click_models ≠ [] →
       (∀ cm ∈ click_models, (cm documents).length = documents.y.length) →
       IsBinaryMask documents.y
         (ConditionedClickModel.click click_models npAll documents) ∧
       IsBinaryMask documents.y
         (ConditionedClickModel.click click_models npAny documents)) ∧
    (∀ (click_model : Documents → List Int) (max_clicks : Option Int)
       (documents : Documents),
       IsBinaryMask documents.y (click_model documents) →
       IsBinaryMask documents.y
         (MaxClicksModel.click click_model max_clicks documents)) := by
  refine ⟨?_, ?_, ?_, ?_, ?_, ?_⟩
  · intro n_clicks chosen documents hn _
    refine ⟨(List.range documents.y.length).map
      (fun i => if chosen.contains i then 1 else 0), ?_, ?_, ?_⟩
    · simp [RandomClickModel.click, hn]
    · simp
    · intro v hv
      rw [List.mem_map] at hv
      obtain ⟨i, _, hi⟩ := hv
      by_cases hc : chosen.contains i = true
      · right
        rw [← hi, if_pos hc]
      · left
        rw [← hi, if_neg hc]
  · intro ps documents hin
    have hall : (ps.all (fun p => decide (-(documents.y.length : Int) ≤ p) &&
        decide (p < (documents.y.length : Int)))) = true := by
      rw [List.all_eq_true]
      intro p hp
      have := hin p hp
      simp only [Bool.and_eq_true, decide_eq_true_iff]
      omega
    refine ⟨(List.range documents.y.length).map (fun i : Nat =>
      if ps.any (fun p => npNormIdx documents.y.length p == ((i : Nat) : Int))
      then 1 else 0), ?_, ?_, ?_⟩
    · show (if (ps.all (fun p => decide (-(documents.y.length : Int) ≤ p) &&
          decide (p < (documents.y.length : Int)))) = true then _ else none) = _
      rw [if_pos hall]
    · simp
    · intro v hv
      rw [List.mem_map] at hv
      obtain ⟨i, _, hi⟩ := hv
      by_cases hb : (ps.any (fun p => npNormIdx documents.y.length p ==
          ((i : Nat) : Int))) = true
      · right
        rw [← hi, if_pos hb]
      · left
        rw [← hi, if_neg hb]
  · intro relevancy_threshold documents
    constructor
    · simp [OnlyRelevantClickModel.click]
    · intro v hv
      unfold OnlyRelevantClickModel.click at hv
      rw [List.mem_map] at hv
      obtain ⟨q, _, hq⟩ := hv
      by_cases hb : relevancy_threshold ≤ q
      · right
        rw [← hq, if_pos hb]
      · left
        rw [← hq, if_neg hb]
  · intro cms probs u documents hlen hvalid hbin
    have hne := MultipleClickModel.validInit_ne_nil hvalid
    have hidx := multiple_index_lt hne u
    rw [← hlen] at hidx
    refine ⟨cms[npArgmaxBool
      (List.map (fun c => decide (u < c)) (npCumsum probs))] documents, ?_, ?_⟩
    · show Option.map (fun cm => cm documents)
        cms[npArgmaxBool (List.map (fun c => decide (u < c)) (npCumsum probs))]? = _
      rw [List.getElem?_eq_getElem hidx]
      rfl
    · exact hbin _ (List.getElem_mem hidx)
  · intro cms documents hne hlen
    obtain ⟨c, cs, rfl⟩ : ∃ c cs, cms = c :: cs := by
      cases cms with
      | nil => exact absurd rfl hne
      | cons c cs => exact ⟨c, cs, rfl⟩
    have hcl : (c documents).length = documents.y.length := hlen c (by simp)
    constructor
    · constructor
      · show (npAll ((c documents) :: List.map (fun cm => cm documents) cs) 0).length = _
        rw [npAll_length, hcl]
      · exact npAll_mem_binary (c documents) (List.map (fun cm => cm documents) cs)
    · constructor
      · show (npAny ((c documents) :: List.map (fun cm => cm documents) cs) 0).length = _
        rw [npAny_length, hcl]
      · exact npAny_mem_binary (c documents) (List.map (fun cm => cm documents) cs)
  · intro click_model max_clicks documents hbin
    obtain ⟨hblen, hbv⟩ := hbin
    cases max_clicks with
    | none => exact ⟨hblen, hbv⟩
    | some m =>
      constructor
      · simp [MaxClicksModel.click, npCumsum_length, hblen]
      · intro v hv
        simp only [MaxClicksModel.click] at hv
        rw [List.mem_map] at hv
        obtain ⟨p, hp, hpv⟩ := hv
        have hp1 := (List.of_mem_zip hp).1
        rcases hbv p.1 hp1 with h0 | h1
        · left
          rw [← hpv, h0]
          ring
        · by_cases hc : p.2 ≤ m
          · right
            rw [← hpv, if_pos hc, h1]
            ring
          · left
            rw [← hpv, if_neg hc]
            ring

/-- C4 witness: the contract instantiated for the random and threshold
variants at concrete inputs. -/
theorem builtin_click_binary_masks_witness :
    (∃ mask, RandomClickModel.click 1 [0] ⟨[], [0]⟩ = some mask ∧
      IsBinaryMask [0] mask) ∧
    IsBinaryMask [0] (OnlyRelevantClickModel.click 1 ⟨[], [0]⟩) :=
  ⟨builtin_click_binary_masks.1 1 [0] ⟨[], [0]⟩ (by decide)
      ⟨by decide, by decide, by decide⟩,
   builtin_click_binary_masks.2.2.1 1 ⟨[], [0]⟩⟩
